import Mathlib

/-!
Verification of the CSV-processing pipeline of parse-csv-4-fun.

The development shallowly embeds the `CsvParser` class (instance version with
`Stats`) and the static `CsvParser.processUsers` of `src/csv-parser.mjs`,
together with the `Stats` class of `src/stats.mjs`.

Modelling conventions:
* a file already read is a `String`; the line source (readline over a stream,
  CR/LF/CRLF-normalised) is a `List String` of the yielded lines;
* the JavaScript string methods used by the code (`split(',')`, `trim`,
  `includes('@')`, `toUpperCase`, `Array.join(',')`) are modelled by
  structurally recursive functions on the character list of a `String`, so
  that every definition evaluates by kernel reduction;
* JavaScript `string | undefined` values (out-of-range array indexing) are
  `Option String`; the JS falsiness test `!x` on such a value holds exactly
  when the value is `undefined` or the empty string;
* `parseInt(s, 10)` is `parseIntJS : String → Option Int`, `none` standing for
  the `NaN` sentinel;
* promise rejection of a per-line unit in the concurrent pipeline is driven by
  an environment parameter `failAt : Nat → Bool` giving the fate of the n-th
  append attempt (counted in launch order);
* filesystem outcomes of a run are collected in `RunResult`: the value
  returned or error thrown, whether the output file exists afterwards, and
  its line content when it does.
-/

/-- JS whitespace test for the whitespace characters that occur in this
repository's data (space, tab, CR, LF); used by `trim` and `parseInt`. -/
def jsWhitespace (c : Char) : Bool := c.isWhitespace

/-- JS `String.prototype.trim`: strip leading and trailing whitespace. -/
def jsTrim (s : String) : String :=
  ⟨(((s.data.dropWhile jsWhitespace).reverse).dropWhile jsWhitespace).reverse⟩

/-- Splitting pass of `jsSplit`: `acc` holds the current field reversed. -/
def jsSplitAux (sep : Char) : List Char → List Char → List (List Char)
  | [], acc => [acc.reverse]
  | c :: cs, acc =>
    if c = sep then acc.reverse :: jsSplitAux sep cs []
    else jsSplitAux sep cs (c :: acc)

/-- JS `String.prototype.split` with a one-character separator: every
occurrence separates two (possibly empty) fields; the empty string splits to
`[""]`. -/
def jsSplit (s : String) (sep : Char) : List String :=
  (jsSplitAux sep s.data []).map (fun cs => ⟨cs⟩)

/-- JS `String.prototype.includes` for a one-character needle. -/
def jsIncludes (s : String) (c : Char) : Bool := s.data.contains c

/-- JS `String.prototype.toUpperCase` (ASCII range, which is all the
transformation the repository's data exercises). -/
def jsToUpper (s : String) : String := ⟨s.data.map Char.toUpper⟩

/-- JS `Array.prototype.join(',')` on an array of strings. -/
def joinComma : List String → String
  | [] => ""
  | [x] => x
  | x :: xs => x ++ "," ++ joinComma xs

/-- Outcome of `#processUsersLine` on one raw data line. -/
inductive LineOutcome where
  | blank
  | skipped
  | processed (out : String)
deriving DecidableEq, Repr

/-- Record of `src/stats.mjs`: processed and skipped counters (the class
constructor rejects negative or non-numeric initial values, so the fields are
naturals). -/
structure Stats where
  processed : Nat
  skipped : Nat
deriving DecidableEq, Repr

/-- Fresh `new Stats()`. -/
def Stats.new : Stats := ⟨0, 0⟩

/-- Getter `total` of `src/stats.mjs` (lines 65-67): `processed + skipped`. -/
def Stats.total (s : Stats) : Nat := s.processed + s.skipped

/-- Errors a pipeline run can throw. -/
inductive RunError where
  /-- The `Error` with message `CSV file must contain "name", "email", and
  "age" headers` thrown by `#processHeaders`. -/
  | malformedHeader
  /-- The `TypeError` raised by `line.split(',')` when `line` is `undefined`,
  which happens when the line source of an empty file is exhausted before the
  header is read. -/
  | undefinedHeaderLine
deriving DecidableEq, Repr

/-- Node `fs.unlink`: rejects with code `ENOENT` when the file does not
exist, otherwise removes it. The argument is whether the file exists; the
result is the existence of the file afterwards. -/
def unlink (ex : Bool) : Except String Bool :=
  if ex then .ok false else .error "ENOENT"

/-- Method `#safeDelete` (part_003 lines 163-169): `fs.unlink` with every
rejection caught (a non-ENOENT code is only logged), so the promise always
resolves and the file never exists afterwards. -/
def safeDelete (ex : Bool) : Except String Bool :=
  match unlink ex with
  | .ok b => .ok b
  | .error _ => .ok false

/-- Existence of the output file after the pipeline runs `#safeDelete` on it
(the file was created at the start of the run, so it exists going in). -/
def afterDelete : Bool :=
  match safeDelete true with
  | .ok b => b
  | .error _ => true

/-- Private field `#USER_HEADERS = ['name', 'email', 'age']`. -/
def USER_HEADERS : List String := ["name", "email", "age"]

/-- Header line written on run start: `#USER_HEADERS.join(',')`. -/
def headerLine : String := joinComma USER_HEADERS

/-- JS `Array.prototype.indexOf` on an array of strings, scanning from
position `i`. -/
def indexOfAux (s : String) : List String → Int → Int
  | [], _ => -1
  | h :: t, i => if h = s then i else indexOfAux s t (i + 1)

/-- JS `headers.indexOf(s)`: index of the first occurrence, `-1` if absent. -/
def indexOf (l : List String) (s : String) : Int := indexOfAux s l 0

/-- Column index triple resolved by `#processHeaders`. -/
structure HeaderIdx where
  nameIndex : Int
  emailIndex : Int
  ageIndex : Int
deriving DecidableEq, Repr

/-- Method `#processHeaders` (part_003 lines 178-193): split the header line
on commas, locate the three required column names by exact match, throw when
any is missing. -/
def processHeaders (line : String) : Except RunError HeaderIdx :=
  let headers := jsSplit line ','
  let n := indexOf headers "name"
  let e := indexOf headers "email"
  let a := indexOf headers "age"
  if n = -1 ∨ e = -1 ∨ a = -1 then .error .malformedHeader
  else .ok ⟨n, e, a⟩

/-- JS `values[i]` for an `Int` index into an array of strings: `undefined`
(`none`) when out of range. -/
def jsIndex (values : List String) (i : Int) : Option String :=
  if i < 0 then none else values[i.toNat]?

/-- Leading decimal digits of a character list (what `parseInt` consumes
after sign handling). -/
def takeDigits : List Char → List Char
  | [] => []
  | c :: cs => if c.isDigit then c :: takeDigits cs else []

/-- Numeric value of a digit list, most significant first. -/
def digitsToNat (ds : List Char) : Nat :=
  ds.foldl (fun n c => n * 10 + (c.toNat - '0'.toNat)) 0

/-- JS `parseInt(s, 10)`: skip leading whitespace, read an optional sign
(`-` or `+` as first remaining character), then the longest prefix of
decimal digits; `NaN` (here `none`) when that prefix is empty. -/
def parseIntJS (s : String) : Option Int :=
  let cs := s.data.dropWhile jsWhitespace
  let sign : Int := if cs.head? = some '-' then -1 else 1
  let body := if cs.head? = some '-' ∨ cs.head? = some '+' then cs.tail else cs
  let ds := takeDigits body
  if ds.isEmpty then none else some (sign * (digitsToNat ds : Int))

/-- Method `#processUser` (part_003 lines 151-161): reject when the email
does not contain `@` or the age is `NaN` or negative; otherwise produce
`[name.toUpperCase(), email, age].join(',')`. The name is not validated. -/
def processUser (name email : String) (age : Option Int) : Option String :=
  if ¬ jsIncludes email '@' then none
  else
    match age with
    | none => none
    | some a =>
      if a < 0 then none
      else some (joinComma [jsToUpper name, email, toString a])

/-- Method `#processUsersLine` (part_003 lines 195-218) without the stats
mutation: classify one raw line. An empty or all-whitespace line is a no-op
(`blank`); a line whose three indexed values are not all present and
non-empty before trimming (JS `!name || !email || !age`) is `skipped`;
otherwise the trimmed fields go through `#processUser` and the line is
`processed` exactly when the returned string is truthy. -/
def processUsersLine (idx : HeaderIdx) (line : String) : LineOutcome :=
  if jsTrim line = "" then .blank
  else
    let values := jsSplit line ','
    let name := jsIndex values idx.nameIndex
    let email := jsIndex values idx.emailIndex
    let age := jsIndex values idx.ageIndex
    if name.getD "" = "" ∨ email.getD "" = "" ∨ age.getD "" = "" then .skipped
    else
      let processedLine :=
        processUser (jsTrim (name.getD "")) (jsTrim (email.getD ""))
          (parseIntJS (jsTrim (age.getD "")))
      if processedLine.getD "" = "" then .skipped
      else .processed (processedLine.getD "")

/-- Per-line state of the sequential runs: the stats object and the data
lines appended to the output file so far. -/
structure SeqState where
  stats : Stats
  out : List String
deriving DecidableEq, Repr

/-- Initial sequential state. -/
def SeqState.init : SeqState := ⟨Stats.new, []⟩

/-- One `await this.#processUsersLine(line, stats)` of the sequential runs:
a blank line does nothing, a skipped line increments `skipped`, a processed
line appends its output line and increments `processed`. -/
def stepLine (idx : HeaderIdx) (s : SeqState) (line : String) : SeqState :=
  match processUsersLine idx line with
  | .blank => s
  | .skipped => { s with stats := { s.stats with skipped := s.stats.skipped + 1 } }
  | .processed o =>
    { stats := { s.stats with processed := s.stats.processed + 1 }, out := s.out ++ [o] }

/-- Observable outcome of a pipeline run: the returned stats or thrown
error, whether the output file exists afterwards, and its lines when it
does. -/
structure RunResult where
  result : Except RunError Stats
  outputExists : Bool
  output : List String
deriving Repr

/-- Tail of every run: on success the output file is kept exactly when at
least one line was processed, and otherwise `#safeDelete`d. -/
def finishRun (stats : Stats) (out : List String) : RunResult :=
  if stats.processed = 0 then
    { result := .ok stats, outputExists := afterDelete, output := [] }
  else
    { result := .ok stats, outputExists := true, output := headerLine :: out }

/-- Outcome of a run aborted by `error`: the catch block `#safeDelete`s the
output file and re-throws. -/
def abortRun (e : RunError) : RunResult :=
  { result := .error e, outputExists := afterDelete, output := [] }

/-- Shared body of the two stream-based runs once the line source yielded a
first line: resolve headers from it and fold the remaining lines. -/
def runFromLines (header : String)
    (fold : HeaderIdx → SeqState) : RunResult :=
  match processHeaders header with
  | .error e => abortRun e
  | .ok idx =>
    let final := fold idx
    finishRun final.stats final.out

/-- Node `os.EOL` (POSIX platforms): the separator `processUsers` splits the
file contents on. -/
def EOL : String := "\n"

/-- Method `processUsers` of part_003 (lines 36-62): read the whole file; an
empty or all-whitespace file returns fresh stats before the output file is
even created; otherwise write the header file, split on `EOL`, resolve the
header from the first piece and process the remaining lines sequentially.
Any thrown error deletes the output file and is re-raised; a run with zero
processed lines deletes the output file. -/
def processUsers (csv : String) : RunResult :=
  if jsTrim csv = "" then
    { result := .ok Stats.new, outputExists := false, output := [] }
  else
    match jsSplit csv '\n' with
    | [] => { result := .ok Stats.new, outputExists := false, output := [] }
    | header :: rest =>
      runFromLines header (fun idx => rest.foldl (stepLine idx) SeqState.init)

/-- Method `processUsersAsStream` of part_003 (lines 68-90): the line source
yields the file's lines; on an empty file `lines.next()` resolves with
`value` undefined and `#processHeaders(undefined)` throws a `TypeError`
(`undefined.split`), which the catch block turns into a deleted output file
plus a re-thrown error. Otherwise the first line resolves the header and the
remaining lines are processed sequentially. -/
def processUsersAsStream (lines : List String) : RunResult :=
  match lines with
  | [] => abortRun .undefinedHeaderLine
  | header :: rest =>
    runFromLines header (fun idx => rest.foldl (stepLine idx) SeqState.init)

/-- Static method `CsvParser.processUsers` of `src/csv-parser.mjs` (lines
23-89): same loop as the stream run, except that the header line is consumed
by the first loop iteration, so an empty file simply never enters the loop
and the run finishes with zero counts (and a deleted output file). -/
def processUsersStatic (lines : List String) : RunResult :=
  match lines with
  | [] => finishRun Stats.new []
  | header :: rest =>
    runFromLines header (fun idx => rest.foldl (stepLine idx) SeqState.init)

/-- State of the concurrent run of part_003 (lines 98-131): besides the
stats and the successfully appended lines it counts the append attempts made
(to index into the failure environment) and the per-line units whose append
rejected. -/
structure ConcState where
  stats : Stats
  out : List String
  attempts : Nat
  failed : Nat
deriving DecidableEq, Repr

/-- Initial concurrent state. -/
def ConcState.init : ConcState := ⟨Stats.new, [], 0, 0⟩

/-- One per-line unit of `processUsersAsStreamAndConcurrency`. The unit runs
`#processUsersLine`; when the line is classified processed and its
`fs.appendFile` rejects (`failAt` true for this attempt), the rejection is
settled by `Promise.allSettled` and discarded: `stats.processed++` after the
failed await never executes, nothing is written, and no error reaches the
catch block of the run. -/
def concStep (idx : HeaderIdx) (failAt : Nat → Bool) (s : ConcState)
    (line : String) : ConcState :=
  match processUsersLine idx line with
  | .blank => s
  | .skipped => { s with stats := { s.stats with skipped := s.stats.skipped + 1 } }
  | .processed o =>
    if failAt s.attempts then
      { s with attempts := s.attempts + 1, failed := s.failed + 1 }
    else
      { stats := { s.stats with processed := s.stats.processed + 1 },
        out := s.out ++ [o], attempts := s.attempts + 1, failed := s.failed }

/-- Method `processUsersAsStreamAndConcurrency` of part_003 (lines 98-131):
header handling as in `processUsersAsStream`; every data line is dispatched
as a concurrent unit and the units are awaited in batches with
`Promise.allSettled`, which never rejects, so unit failures do not abort the
run. The final stats and output are the fold of `concStep` over the data
lines. -/
def processUsersAsStreamAndConcurrency (failAt : Nat → Bool)
    (lines : List String) : RunResult :=
  match lines with
  | [] => abortRun .undefinedHeaderLine
  | header :: rest =>
    match processHeaders header with
    | .error e => abortRun e
    | .ok idx =>
      let final := rest.foldl (concStep idx failAt) ConcState.init
      finishRun final.stats final.out

/-- Units whose append rejected during the concurrent run (0 when the run
aborted before processing data lines). -/
def concFailedUnits (failAt : Nat → Bool) (lines : List String) : Nat :=
  match lines with
  | [] => 0
  | header :: rest =>
    match processHeaders header with
    | .error _ => 0
    | .ok idx => (rest.foldl (concStep idx failAt) ConcState.init).failed

/-- Batch capacity of `processUsersAsStreamAndConcurrency` (line 99:
`const batchSize = 1000`). -/
def batchSize : Nat := 1000

/-- Events of the batching loop of `processUsersAsStreamAndConcurrency`:
launching one per-line unit (`promises.push(...)`), or awaiting
`Promise.allSettled` over the `n` currently pending units. -/
inductive WriterEv where
  | launch
  | settle (n : Nat)
deriving DecidableEq, Repr

/-- Trace of the batching loop (part_003 lines 107-120) started with
`pending` units already in `promises`: each line is pushed, and as soon as
the batch holds `B` units they are all settled and the array is reset; after
the line source is exhausted a final `Promise.allSettled` settles any
remaining partial batch. -/
def writerTrace (B : Nat) : List String → Nat → List WriterEv
  | [], pending => if pending > 0 then [.settle pending] else []
  | _ :: ls, pending =>
    if pending + 1 ≥ B then .launch :: .settle (pending + 1) :: writerTrace B ls 0
    else .launch :: writerTrace B ls (pending + 1)

/-- Number of in-flight units after a sequence of writer events, starting
from `p` pending units. -/
def pendingAfter : List WriterEv → Nat → Nat
  | [], p => p
  | .launch :: t, p => pendingAfter t (p + 1)
  | .settle n :: t, p => pendingAfter t (p - n)

/-- Largest number of in-flight units reached along a sequence of writer
events, starting from `p` pending units. -/
def maxPending : List WriterEv → Nat → Nat
  | [], p => p
  | .launch :: t, p => max (p + 1) (maxPending t (p + 1))
  | .settle n :: t, p => max p (maxPending t (p - n))

/-- Number of data lines that are not blank (not empty or all-whitespace):
what the spec calls the non-blank input data lines. -/
def countNonBlank (ls : List String) : Nat :=
  (ls.filter (fun l => ¬ jsTrim l = "")).length

/-- Node `path.dirname` (posix): everything before the slash that precedes
the last path component, with the trailing-slash group dropped; `.` when the
path has no directory part, `/` for root-only paths (`//` kept as the
special double-slash root). Transcription of the scan of node's
implementation over the character list. -/
def dirname (p : String) : String :=
  match p.data with
  | [] => "."
  | c :: t =>
    let hasRoot := c = '/'
    let rt := t.reverse
    let rt1 := rt.dropWhile (fun x => x = '/')
    let rt2 := rt1.dropWhile (fun x => x ≠ '/')
    if rt2.isEmpty then (if hasRoot then "/" else ".")
    else if hasRoot ∧ rt2.length = 1 then "//"
    else ⟨(c :: t).take rt2.length⟩

/-- JS `Array.prototype.join('/')` on path segments. -/
def joinSlash : List String → String
  | [] => ""
  | [x] => x
  | x :: xs => x ++ "/" ++ joinSlash xs

/-- Path normalization pass of node `path.join` (posix): drop empty and `.`
segments, resolve `..` against the already-kept segments. -/
def normalizeSegs : List String → List String → List String
  | [], acc => acc.reverse
  | "" :: t, acc => normalizeSegs t acc
  | "." :: t, acc => normalizeSegs t acc
  | ".." :: t, acc =>
    match acc with
    | [] => normalizeSegs t [".."]
    | ".." :: _ => normalizeSegs t (".." :: acc)
    | _ :: rest => normalizeSegs t rest
  | s :: t, acc => normalizeSegs t (s :: acc)

/-- Node `path.join(a, b)` (posix): concatenate the segments of the two
arguments, normalize, and re-join; absolute when the first argument is,
`.` when nothing remains. -/
def joinPath (a b : String) : String :=
  let isAbs := a.data.head? = some '/'
  let segs0 := normalizeSegs (jsSplit a '/' ++ jsSplit b '/') []
  let segs := if isAbs then segs0.dropWhile (fun s => s = "..") else segs0
  let body := joinSlash segs
  if isAbs then "/" ++ body else if body = "" then "." else body

/-- Defaulting of the output path: part_003 constructor lines 26-30
(`outputFilePath || path.join(path.dirname(inputFilePath), 'output.csv')`)
and, identically, the static `processUsers` of `src/csv-parser.mjs` lines
23-27. JS `||` takes the default for `undefined` and for the falsy empty
string. -/
def resolveOutputPath (inputFilePath : String) (outputFilePath : Option String) : String :=
  match outputFilePath with
  | some p => if p = "" then joinPath (dirname inputFilePath) "output.csv" else p
  | none => joinPath (dirname inputFilePath) "output.csv"

/-- Fields of a `CsvParser` instance after construction. -/
structure CsvParser where
  inputFilePath : String
  outputFilePath : String
deriving DecidableEq, Repr

/-- Constructor `new CsvParser(inputFilePath, outputFilePath)` of part_003
(lines 26-30). -/
def CsvParser.make (inputFilePath : String) (outputFilePath : Option String) : CsvParser :=
  ⟨inputFilePath, resolveOutputPath inputFilePath outputFilePath⟩

/-- Method call `parser.processUsersAsStream()` on an instance: the pure
observable behaviour given the lines of the file at the instance's input
path. -/
def CsvParser.runStream (_p : CsvParser) (lines : List String) : RunResult :=
  processUsersAsStream lines

/-- Method call `parser.processUsers()` on an instance, given the contents
of the file at the instance's input path. -/
def CsvParser.runWhole (_p : CsvParser) (csv : String) : RunResult :=
  processUsers csv

/-- Method call `parser.processUsersAsStreamAndConcurrency()` on an
instance, given the file's lines and the append-failure environment. -/
def CsvParser.runConc (_p : CsvParser) (failAt : Nat → Bool)
    (lines : List String) : RunResult :=
  processUsersAsStreamAndConcurrency failAt lines

theorem processUsersLine_blank_iff (idx : HeaderIdx) (line : String) :
    processUsersLine idx line = .blank ↔ jsTrim line = "" := by
  unfold processUsersLine
  by_cases h : jsTrim line = ""
  · simp [h]
  · simp only [if_neg h]
    constructor
    · intro hc
      exfalso
      revert hc
      split <;> simp
      split <;> simp
    · intro hc
      exact absurd hc h

theorem processUsersLine_ne_blank (idx : HeaderIdx) (line : String)
    (h : jsTrim line ≠ "") : processUsersLine idx line ≠ .blank := by
  rw [Ne, processUsersLine_blank_iff]
  exact h

theorem processUsersLine_eq_of_lookup (idx : HeaderIdx) (line n e a : String)
    (hb : jsTrim line ≠ "")
    (hn : jsIndex (jsSplit line ',') idx.nameIndex = some n)
    (he : jsIndex (jsSplit line ',') idx.emailIndex = some e)
    (ha : jsIndex (jsSplit line ',') idx.ageIndex = some a) :
    processUsersLine idx line =
      if n = "" ∨ e = "" ∨ a = "" then .skipped
      else
        match processUser (jsTrim n) (jsTrim e) (parseIntJS (jsTrim a)) with
        | some o => if o = "" then .skipped else .processed o
        | none => .skipped := by
  unfold processUsersLine
  rw [if_neg hb]
  simp only [hn, he, ha, Option.getD_some]
  cases hpu : processUser (jsTrim n) (jsTrim e) (parseIntJS (jsTrim a)) <;> simp [hpu]

theorem processUser_none_of_no_at (name email : String) (age : Option Int)
    (h : jsIncludes email '@' = false) : processUser name email age = none := by
  simp [processUser, h]

theorem processUser_none_of_nan (name email : String) :
    processUser name email none = none := by
  unfold processUser
  split <;> rfl

theorem processUser_none_of_neg (name email : String) (k : Int) (hk : k < 0) :
    processUser name email (some k) = none := by
  unfold processUser
  split
  · rfl
  · simp [hk]

theorem processUser_some_of_valid (name email : String) (k : Int)
    (hat : jsIncludes email '@' = true) (hk : 0 ≤ k) :
    processUser name email (some k)
      = some (joinComma [jsToUpper name, email, toString k]) := by
  simp [processUser, hat, Int.not_lt.mpr hk]

theorem joinComma3_ne_empty (x y z : String) : joinComma [x, y, z] ≠ "" := by
  intro h
  have hl := congrArg String.length h
  rw [show joinComma [x, y, z] = x ++ "," ++ (y ++ "," ++ z) from rfl] at hl
  simp only [String.length_append] at hl
  rw [show String.length "," = 1 from rfl, show String.length "" = 0 from rfl] at hl
  omega

theorem indexOfAux_eq_neg_one_iff (s : String) (l : List String) :
    ∀ i : Int, 0 ≤ i → (indexOfAux s l i = -1 ↔ s ∉ l) := by
  induction l with
  | nil => intro i _; simp [indexOfAux]
  | cons h t ih =>
    intro i hi
    simp only [indexOfAux]
    by_cases hh : h = s
    · rw [if_pos hh]
      subst hh
      have hne : ¬ (i = -1) := by omega
      simp [hne]
    · rw [if_neg hh, ih (i + 1) (by omega)]
      have hsh : s ≠ h := fun he => hh he.symm
      simp [List.mem_cons, hsh]

theorem indexOf_eq_neg_one_iff (l : List String) (s : String) :
    indexOf l s = -1 ↔ s ∉ l :=
  indexOfAux_eq_neg_one_iff s l 0 (by omega)

theorem processHeaders_error_iff (line : String) :
    processHeaders line = .error .malformedHeader ↔
      ("name" ∉ jsSplit line ',' ∨ "email" ∉ jsSplit line ','
        ∨ "age" ∉ jsSplit line ',') := by
  simp only [processHeaders]
  split
  · rename_i hcond
    simp only [true_iff]
    rw [← indexOf_eq_neg_one_iff, ← indexOf_eq_neg_one_iff, ← indexOf_eq_neg_one_iff]
    exact hcond
  · rename_i hcond
    push_neg at hcond
    constructor
    · intro h
      exact absurd h (by simp)
    · intro h
      exfalso
      rcases h with h | h | h
      · exact hcond.1 ((indexOf_eq_neg_one_iff _ _).mpr h)
      · exact hcond.2.1 ((indexOf_eq_neg_one_iff _ _).mpr h)
      · exact hcond.2.2 ((indexOf_eq_neg_one_iff _ _).mpr h)

theorem stepLine_total (idx : HeaderIdx) (s : SeqState) (line : String) :
    (stepLine idx s line).stats.total
      = s.stats.total + (if jsTrim line = "" then 0 else 1) := by
  by_cases h : jsTrim line = ""
  · rw [stepLine, (processUsersLine_blank_iff idx line).mpr h]
    simp [h]
  · rw [stepLine]
    cases hc : processUsersLine idx line with
    | blank => exact absurd hc (processUsersLine_ne_blank idx line h)
    | skipped => simp [h, Stats.total]; omega
    | processed o => simp [h, Stats.total]; omega

theorem foldl_stepLine_total (idx : HeaderIdx) (rest : List String) :
    ∀ s : SeqState,
      ((rest.foldl (stepLine idx) s).stats.total)
        = s.stats.total + countNonBlank rest := by
  induction rest with
  | nil => intro s; simp [countNonBlank]
  | cons l ls ih =>
    intro s
    rw [List.foldl_cons, ih, stepLine_total]
    by_cases h : jsTrim l = "" <;> (simp [countNonBlank, h]; try omega)

theorem concStep_acct (idx : HeaderIdx) (failAt : Nat → Bool) (s : ConcState)
    (line : String) :
    (concStep idx failAt s line).stats.total + (concStep idx failAt s line).failed
      = s.stats.total + s.failed + (if jsTrim line = "" then 0 else 1) := by
  by_cases h : jsTrim line = ""
  · rw [concStep, (processUsersLine_blank_iff idx line).mpr h]
    simp [h]
  · rw [concStep]
    cases hc : processUsersLine idx line with
    | blank => exact absurd hc (processUsersLine_ne_blank idx line h)
    | skipped => simp [h, Stats.total]; omega
    | processed o =>
      by_cases hf : failAt s.attempts = true <;> (simp [h, hf, Stats.total]; omega)

theorem foldl_concStep_acct (idx : HeaderIdx) (failAt : Nat → Bool)
    (rest : List String) :
    ∀ s : ConcState,
      ((rest.foldl (concStep idx failAt) s).stats.total
          + (rest.foldl (concStep idx failAt) s).failed)
        = s.stats.total + s.failed + countNonBlank rest := by
  induction rest with
  | nil => intro s; simp [countNonBlank]
  | cons l ls ih =>
    intro s
    rw [List.foldl_cons, ih, concStep_acct]
    by_cases h : jsTrim l = "" <;> (simp [countNonBlank, h]; try omega)

theorem concStep_failed_of_reliable (idx : HeaderIdx) (s : ConcState)
    (line : String) :
    (concStep idx (fun _ => false) s line).failed = s.failed := by
  rw [concStep]
  cases processUsersLine idx line <;> simp

theorem foldl_concStep_failed_of_reliable (idx : HeaderIdx) (rest : List String) :
    ∀ s : ConcState,
      (rest.foldl (concStep idx (fun _ => false)) s).failed = s.failed := by
  induction rest with
  | nil => intro s; rfl
  | cons l ls ih =>
    intro s
    rw [List.foldl_cons, ih, concStep_failed_of_reliable]

theorem writerTrace_inv (B : Nat) (hB : 0 < B) (ls : List String) :
    ∀ p : Nat, p < B →
      maxPending (writerTrace B ls p) p ≤ B
        ∧ pendingAfter (writerTrace B ls p) p = 0 := by
  induction ls with
  | nil =>
    intro p hp
    by_cases h : p > 0
    · simp [writerTrace, h, maxPending, pendingAfter]
      omega
    · simp [writerTrace, h, maxPending, pendingAfter]
      omega
  | cons l ls ih =>
    intro p hp
    by_cases h : p + 1 ≥ B
    · have h0 := ih 0 hB
      simp [writerTrace, h, maxPending, pendingAfter]
      refine ⟨⟨by omega, h0.1⟩, h0.2⟩
    · have hrec := ih (p + 1) (by omega)
      simp [writerTrace, h, maxPending, pendingAfter]
      refine ⟨⟨by omega, hrec.1⟩, hrec.2⟩

theorem isDigit_not_sign_not_ws (c : Char) (h : c.isDigit = true) :
    jsWhitespace c = false ∧ c ≠ '-' ∧ c ≠ '+' := by
  refine ⟨?_, ?_, ?_⟩
  · unfold jsWhitespace
    by_contra hw
    rw [Bool.not_eq_false] at hw
    have hws : ((c = ' ' ∨ c = '\t') ∨ c = '\x0d') ∨ c = '\n' := by
      simpa [Char.isWhitespace] using hw
    rcases hws with ((h1 | h1) | h1) | h1 <;> subst h1 <;> exact absurd h (by decide)
  · intro he
    subst he
    exact absurd h (by decide)
  · intro he
    subst he
    exact absurd h (by decide)

theorem takeDigits_append (ds suf : List Char)
    (hds : ∀ c ∈ ds, c.isDigit = true)
    (hsuf : ∀ c, suf.head? = some c → c.isDigit = false) :
    takeDigits (ds ++ suf) = ds := by
  induction ds with
  | nil =>
    cases suf with
    | nil => rfl
    | cons c cs => simp [takeDigits, hsuf c rfl]
  | cons d dt ih =>
    have hd := hds d (by simp)
    simp only [List.cons_append, takeDigits, hd, if_true]
    show d :: takeDigits (dt ++ suf) = d :: dt
    rw [ih (fun c hc => hds c (by simp [hc]))]

theorem parseIntJS_digits_append (ds suf : List Char) (hne : ds ≠ [])
    (hds : ∀ c ∈ ds, c.isDigit = true)
    (hsuf : ∀ c, suf.head? = some c → c.isDigit = false) :
    parseIntJS ⟨ds ++ suf⟩ = some ((digitsToNat ds : Int)) := by
  cases ds with
  | nil => exact absurd rfl hne
  | cons d dt =>
    have hd := hds d (by simp)
    have hfacts := isDigit_not_sign_not_ws d hd
    unfold parseIntJS
    rw [show (String.mk ((d :: dt) ++ suf)).data = d :: (dt ++ suf) from rfl]
    rw [List.dropWhile_cons_of_neg (by simp [hfacts.1])]
    simp only [List.head?_cons, Option.some.injEq,
      eq_false hfacts.2.1,
      eq_false hfacts.2.2, false_or, if_false]
    simp only [← List.cons_append]
    rw [takeDigits_append (d :: dt) suf hds hsuf]
    simp

theorem afterDelete_eq_false : afterDelete = false := rfl

theorem finishRun_result (stats : Stats) (out : List String) :
    (finishRun stats out).result = .ok stats := by
  unfold finishRun
  split <;> rfl

theorem finishRun_exists_iff (stats : Stats) (out : List String) :
    (finishRun stats out).outputExists = true ↔ 0 < stats.processed := by
  unfold finishRun
  split
  · rename_i h
    simp [afterDelete_eq_false, h]
  · rename_i h
    simp
    omega

theorem runFromLines_of_ok (header : String) (fold : HeaderIdx → SeqState)
    (idx : HeaderIdx) (hh : processHeaders header = .ok idx) :
    runFromLines header fold = finishRun (fold idx).stats (fold idx).out := by
  unfold runFromLines
  rw [hh]

theorem runFromLines_of_error (header : String) (fold : HeaderIdx → SeqState)
    (e : RunError) (hh : processHeaders header = .error e) :
    runFromLines header fold = abortRun e := by
  unfold runFromLines
  rw [hh]

theorem joinPath_ne_empty (a b : String) : joinPath a b ≠ "" := by
  intro h
  simp only [joinPath] at h
  split at h
  · have hl := congrArg String.length h
    rw [String.length_append] at hl
    rw [show String.length "/" = 1 from rfl, show String.length "" = 0 from rfl] at hl
    omega
  · split at h
    · exact absurd h (by decide)
    · rename_i hbody
      exact hbody h

/-- C1 counterexample: in `processUsersAsStreamAndConcurrency`, when the
append of the first processed line rejects (sink unwritable for that write),
the run does not abort: it returns normally with ok-stats, the error is not
re-raised, the output file is retained (a later append succeeded), and the
failed line is counted in neither counter. -/
theorem appendFailure_run_completes_normally :
    processUsersAsStreamAndConcurrency (fun n => n == 0)
      ["name,email,age", "john doe,john@example.com,25", "alice,a@e.com,30"]
      = { result := .ok ⟨1, 0⟩, outputExists := true,
          output := ["name,email,age", "ALICE,a@e.com,30"] } := rfl

/-- C1 amended: whatever appends fail, the concurrent run with a resolvable
header completes normally (`Promise.allSettled` never rejects, so a unit's
append failure is discarded rather than re-raised), and every non-blank data
line is accounted either in the stats counters or as a silently failed
unit. -/
theorem appendFailure_swallowed_by_allSettled (failAt : Nat → Bool)
    (header : String) (rest : List String) (idx : HeaderIdx)
    (hh : processHeaders header = .ok idx) :
    (processUsersAsStreamAndConcurrency failAt (header :: rest)).result
        = .ok (rest.foldl (concStep idx failAt) ConcState.init).stats
  ∧ (rest.foldl (concStep idx failAt) ConcState.init).stats.total
        + (rest.foldl (concStep idx failAt) ConcState.init).failed
      = countNonBlank rest := by
  constructor
  · simp only [processUsersAsStreamAndConcurrency]
    rw [hh]
    exact finishRun_result _ _
  · have h := foldl_concStep_acct idx failAt rest ConcState.init
    simpa [ConcState.init, Stats.new, Stats.total] using h

/-- C1 amended witness: concrete run with one failing append. -/
theorem appendFailure_swallowed_by_allSettled_witness :
    (processUsersAsStreamAndConcurrency (fun n => n == 0)
        ["name,email,age", "john doe,john@example.com,25", "alice,a@e.com,30"]).result
      = .ok ⟨1, 0⟩ := by
  have h := appendFailure_swallowed_by_allSettled (fun n => n == 0) "name,email,age"
    ["john doe,john@example.com,25", "alice,a@e.com,30"] ⟨0, 1, 2⟩ rfl
  rw [h.1]
  rfl

/-- C2 counterexample: a data line whose name field is whitespace-only (so
present and truthy before trimming, empty after trimming) is not skipped:
the run processes it and writes an output line with an empty name. -/
theorem whitespaceName_line_is_processed :
    processUsersAsStream ["name,email,age", " ,a@b.com,25"]
      = { result := .ok ⟨1, 0⟩, outputExists := true,
          output := ["name,email,age", ",a@b.com,25"] } := rfl

/-- C2 amended: the presence check `!name || !email || !age` runs on the raw
field values, before trimming. A field that is missing or empty before
trimming skips the line; a whitespace-only email or age field still leads to
skipped (the trimmed email fails the `@` check; the trimmed age parses to
the NaN sentinel); but a whitespace-only name does not cause a skip: when
email and age validate, the line is processed with the empty upper-cased
name. -/
theorem presence_check_precedes_trimming (idx : HeaderIdx) (line n e a : String)
    (hb : jsTrim line ≠ "")
    (hn : jsIndex (jsSplit line ',') idx.nameIndex = some n)
    (he : jsIndex (jsSplit line ',') idx.emailIndex = some e)
    (ha : jsIndex (jsSplit line ',') idx.ageIndex = some a)
    (hne : n ≠ "") (hee : e ≠ "") (hae : a ≠ "") :
    (jsTrim e = "" → processUsersLine idx line = .skipped)
  ∧ (parseIntJS (jsTrim a) = none → processUsersLine idx line = .skipped)
  ∧ (∀ k : Int, parseIntJS (jsTrim a) = some k → 0 ≤ k →
      jsIncludes (jsTrim e) '@' = true →
      processUsersLine idx line
        = .processed (joinComma [jsToUpper (jsTrim n), jsTrim e, toString k])) := by
  have hcond : ¬ (n = "" ∨ e = "" ∨ a = "") := by simp [hne, hee, hae]
  refine ⟨?_, ?_, ?_⟩
  · intro het
    rw [processUsersLine_eq_of_lookup idx line n e a hb hn he ha, if_neg hcond, het]
    rw [processUser_none_of_no_at (jsTrim n) "" (parseIntJS (jsTrim a)) rfl]
  · intro hpn
    rw [processUsersLine_eq_of_lookup idx line n e a hb hn he ha, if_neg hcond,
      hpn, processUser_none_of_nan]
  · intro k hk hge hat
    rw [processUsersLine_eq_of_lookup idx line n e a hb hn he ha, if_neg hcond,
      hk, processUser_some_of_valid (jsTrim n) (jsTrim e) k hat hge]
    simp [joinComma3_ne_empty]

/-- C2 amended witness: the whitespace-only-name line from the
counterexample instantiates the processed branch; a whitespace-only email is
skipped. -/
theorem presence_check_precedes_trimming_witness :
    processUsersLine ⟨0, 1, 2⟩ " ,a@b.com,25" = .processed ",a@b.com,25"
  ∧ processUsersLine ⟨0, 1, 2⟩ "john, ,25" = .skipped := by
  constructor
  · have h := presence_check_precedes_trimming ⟨0, 1, 2⟩ " ,a@b.com,25"
      " " "a@b.com" "25" (by decide) rfl rfl rfl (by decide) (by decide) (by decide)
    have h2 := h.2.2 25 rfl (by omega) rfl
    exact h2
  · have h := presence_check_precedes_trimming ⟨0, 1, 2⟩ "john, ,25"
      "john" " " "25" (by decide) rfl rfl rfl (by decide) (by decide) (by decide)
    exact h.1 rfl

/-- C3: on a zero-byte input file, `processUsers` (which returns fresh stats
before creating any output file) and the static `processUsers` of
`src/csv-parser.mjs` (which deletes the freshly written header file) return
`{processed: 0, skipped: 0}` with no output file, but the two stream-based
entry points instead throw the `TypeError` of `undefined.split` from header
resolution (output file deleted, error re-raised), diverging from the
claimed error-free `{0, 0}` result. -/
theorem emptyInput_divergence :
    processUsers "" = { result := .ok Stats.new, outputExists := false, output := [] }
  ∧ processUsersStatic []
      = { result := .ok Stats.new, outputExists := false, output := [] }
  ∧ (processUsersAsStream []).result = .error .undefinedHeaderLine
  ∧ (processUsersAsStream []).outputExists = false
  ∧ (processUsersAsStreamAndConcurrency (fun _ => false) []).result
      = .error .undefinedHeaderLine
  ∧ (processUsersAsStreamAndConcurrency (fun _ => false) []).outputExists = false :=
  ⟨rfl, rfl, rfl, rfl, rfl, rfl⟩

/-- C6: on the three-line scenario input, every entry point returns stats
`{processed: 1, skipped: 2}` and the output file holds the header plus
exactly the line `JOHN DOE,john@example.com,25` (name upper-cased, email
verbatim, parsed age, comma-joined). -/
theorem scenario_mixed_three_lines :
    processUsers
        "name,email,age\njohn doe,john@example.com,25\njane smith,invalid-email,30\nbob,bob@example.com,-5"
      = { result := .ok ⟨1, 2⟩, outputExists := true,
          output := ["name,email,age", "JOHN DOE,john@example.com,25"] }
  ∧ processUsersAsStream
        ["name,email,age", "john doe,john@example.com,25",
          "jane smith,invalid-email,30", "bob,bob@example.com,-5"]
      = { result := .ok ⟨1, 2⟩, outputExists := true,
          output := ["name,email,age", "JOHN DOE,john@example.com,25"] }
  ∧ processUsersAsStreamAndConcurrency (fun _ => false)
        ["name,email,age", "john doe,john@example.com,25",
          "jane smith,invalid-email,30", "bob,bob@example.com,-5"]
      = { result := .ok ⟨1, 2⟩, outputExists := true,
          output := ["name,email,age", "JOHN DOE,john@example.com,25"] } :=
  ⟨rfl, rfl, rfl⟩

theorem runFromLines_exists_iff (header : String) (fold : HeaderIdx → SeqState)
    (stats : Stats) (h : (runFromLines header fold).result = .ok stats) :
    (runFromLines header fold).outputExists = true ↔ 0 < stats.processed := by
  cases hh : processHeaders header with
  | error e =>
    rw [runFromLines_of_error header fold e hh] at h
    simp [abortRun] at h
  | ok idx =>
    rw [runFromLines_of_ok header fold idx hh] at h ⊢
    rw [finishRun_result] at h
    injection h with h2
    rw [← h2]
    exact finishRun_exists_iff _ _

/-- C4: for every run that returns ok-stats (stream and concurrent entry
points, reliable sink), `stats.total = processed + skipped` equals the number
of non-blank data lines after the header; per line, a blank line leaves the
state untouched while a non-blank line adds exactly one to the total. -/
theorem stats_total_counts_nonblank (lines : List String) (stats : Stats) :
    ((processUsersAsStream lines).result = .ok stats →
        stats.total = countNonBlank (lines.drop 1))
  ∧ ((processUsersAsStreamAndConcurrency (fun _ => false) lines).result = .ok stats →
        stats.total = countNonBlank (lines.drop 1))
  ∧ (∀ (idx : HeaderIdx) (s : SeqState) (l : String),
        (jsTrim l = "" → stepLine idx s l = s)
      ∧ (stepLine idx s l).stats.total
          = s.stats.total + (if jsTrim l = "" then 0 else 1)) := by
  refine ⟨?_, ?_, ?_⟩
  · cases lines with
    | nil =>
      intro h
      simp [processUsersAsStream, abortRun] at h
    | cons header rest =>
      intro h
      simp only [processUsersAsStream] at h
      cases hh : processHeaders header with
      | error e =>
        rw [runFromLines_of_error header _ e hh] at h
        simp [abortRun] at h
      | ok idx =>
        rw [runFromLines_of_ok header _ idx hh, finishRun_result] at h
        injection h with h2
        rw [← h2, foldl_stepLine_total idx rest SeqState.init]
        simp [SeqState.init, Stats.new, Stats.total]
  · cases lines with
    | nil =>
      intro h
      simp [processUsersAsStreamAndConcurrency, abortRun] at h
    | cons header rest =>
      intro h
      simp only [processUsersAsStreamAndConcurrency] at h
      cases hh : processHeaders header with
      | error e =>
        rw [hh] at h
        simp [abortRun] at h
      | ok idx =>
        rw [hh, finishRun_result] at h
        injection h with h2
        have hacct := foldl_concStep_acct idx (fun _ => false) rest ConcState.init
        have hf := foldl_concStep_failed_of_reliable idx rest ConcState.init
        rw [show ConcState.init.stats.total = 0 from rfl,
          show ConcState.init.failed = 0 from rfl] at hacct
        rw [show ConcState.init.failed = 0 from rfl] at hf
        rw [← h2]
        simp only [List.drop_succ_cons, List.drop_zero]
        omega
  · intro idx s l
    constructor
    · intro hbl
      rw [stepLine, (processUsersLine_blank_iff idx l).mpr hbl]
    · exact stepLine_total idx s l

/-- C4 witness: a concrete stream run with one processed, one blank and one
skipped data line has total 2, the number of non-blank data lines. -/
theorem stats_total_counts_nonblank_witness :
    Stats.total ⟨1, 1⟩
      = countNonBlank
          (["name,email,age", "john doe,john@example.com,25", "   ", "bad"].drop 1) :=
  (stats_total_counts_nonblank
    ["name,email,age", "john doe,john@example.com,25", "   ", "bad"] ⟨1, 1⟩).1 rfl

/-- C5: the age field uses leading-numeric-prefix parsing after trimming: a
parse result that is negative makes the line skipped (whatever the email),
a digit list followed by a non-digit suffix parses to the value of the digit
prefix, a fully non-numeric age such as `abc` yields the NaN sentinel and a
skipped line, and age `25extra` is accepted as 25. -/
theorem age_parsing_policy (idx : HeaderIdx) (line n e a : String) (k : Int)
    (ds suf : List Char)
    (hb : jsTrim line ≠ "")
    (hn : jsIndex (jsSplit line ',') idx.nameIndex = some n)
    (he : jsIndex (jsSplit line ',') idx.emailIndex = some e)
    (ha : jsIndex (jsSplit line ',') idx.ageIndex = some a)
    (hne : n ≠ "") (hee : e ≠ "") (hae : a ≠ "")
    (hk : parseIntJS (jsTrim a) = some k) (hneg : k < 0)
    (hdne : ds ≠ []) (hdig : ∀ c ∈ ds, c.isDigit = true)
    (hsuf : ∀ c, suf.head? = some c → c.isDigit = false) :
    processUsersLine idx line = .skipped
  ∧ parseIntJS ⟨ds ++ suf⟩ = some ((digitsToNat ds : Int))
  ∧ parseIntJS "abc" = none
  ∧ processUsersLine ⟨0, 1, 2⟩ "bob smith,bob@example.com,abc" = .skipped
  ∧ parseIntJS "25extra" = some 25
  ∧ processUsersLine ⟨0, 1, 2⟩ "john doe,john@example.com,25extra"
      = .processed "JOHN DOE,john@example.com,25" := by
  have hcond : ¬ (n = "" ∨ e = "" ∨ a = "") := by simp [hne, hee, hae]
  refine ⟨?_, parseIntJS_digits_append ds suf hdne hdig hsuf, rfl, rfl, rfl, rfl⟩
  rw [processUsersLine_eq_of_lookup idx line n e a hb hn he ha, if_neg hcond, hk,
    processUser_none_of_neg (jsTrim n) (jsTrim e) k hneg]

/-- C5 witness: the negative-age scenario line is skipped. -/
theorem age_parsing_policy_witness :
    processUsersLine ⟨0, 1, 2⟩ "bob,bob@example.com,-5" = .skipped := by
  have hsuf : ∀ c : Char, (['e'] : List Char).head? = some c → c.isDigit = false := by
    intro c hc
    simp only [List.head?_cons, Option.some.injEq] at hc
    subst hc
    decide
  have h := age_parsing_policy ⟨0, 1, 2⟩ "bob,bob@example.com,-5" "bob"
    "bob@example.com" "-5" (-5) ['2', '5'] ['e'] (by decide) rfl rfl rfl
    (by decide) (by decide) (by decide) (by decide) (by omega) (by decide)
    (by decide) hsuf
  exact h.1

/-- C7: a header line missing any of the exact column names name, email,
age makes `#processHeaders` throw the malformed-header error; the run aborts
before any data line is processed (its outcome does not depend on the data
lines), the error is re-raised, and the output file does not exist
afterwards. -/
theorem malformed_header_aborts_run (header : String) (rest rest2 : List String)
    (failAt : Nat → Bool)
    (hmiss : "name" ∉ jsSplit header ',' ∨ "email" ∉ jsSplit header ','
      ∨ "age" ∉ jsSplit header ',') :
    processHeaders header = .error .malformedHeader
  ∧ processUsersAsStream (header :: rest) = abortRun .malformedHeader
  ∧ (processUsersAsStream (header :: rest)).outputExists = false
  ∧ (processUsersAsStream (header :: rest)).output = []
  ∧ processUsersAsStream (header :: rest) = processUsersAsStream (header :: rest2)
  ∧ processUsersAsStreamAndConcurrency failAt (header :: rest)
      = abortRun .malformedHeader := by
  have hh := (processHeaders_error_iff header).mpr hmiss
  have hs : processUsersAsStream (header :: rest) = abortRun .malformedHeader := by
    simp only [processUsersAsStream]
    exact runFromLines_of_error header _ _ hh
  have hs2 : processUsersAsStream (header :: rest2) = abortRun .malformedHeader := by
    simp only [processUsersAsStream]
    exact runFromLines_of_error header _ _ hh
  have hc : processUsersAsStreamAndConcurrency failAt (header :: rest)
      = abortRun .malformedHeader := by
    simp only [processUsersAsStreamAndConcurrency]
    rw [hh]
  exact ⟨hh, hs, by rw [hs]; rfl, by rw [hs]; rfl, by rw [hs, hs2], hc⟩

/-- C7 witness: a header without a name column aborts the run. -/
theorem malformed_header_aborts_run_witness :
    processHeaders "email,age" = .error .malformedHeader
  ∧ processUsersAsStream ["email,age", "a,a@b.com,3"] = abortRun .malformedHeader := by
  have h := malformed_header_aborts_run "email,age" ["a,a@b.com,3"] []
    (fun _ => false) (Or.inl (by decide))
  exact ⟨h.1, h.2.1⟩

/-- C8: a run that returns ok-stats keeps the output file exactly when at
least one line was processed (zero processed lines mean the file was deleted
rather than left holding only the header), and deleting a nonexistent file
is not an error: `#safeDelete` resolves even though `fs.unlink` rejects with
ENOENT. -/
theorem zero_processed_output_deleted (lines : List String) (failAt : Nat → Bool)
    (csv : String) (stats : Stats) :
    ((processUsersAsStream lines).result = .ok stats →
        ((processUsersAsStream lines).outputExists = true ↔ 0 < stats.processed))
  ∧ ((processUsersAsStreamAndConcurrency failAt lines).result = .ok stats →
        ((processUsersAsStreamAndConcurrency failAt lines).outputExists = true
          ↔ 0 < stats.processed))
  ∧ ((processUsers csv).result = .ok stats →
        ((processUsers csv).outputExists = true ↔ 0 < stats.processed))
  ∧ safeDelete false = .ok false
  ∧ unlink false = .error "ENOENT" := by
  refine ⟨?_, ?_, ?_, rfl, rfl⟩
  · cases lines with
    | nil =>
      intro h
      simp [processUsersAsStream, abortRun] at h
    | cons header rest =>
      intro h
      simp only [processUsersAsStream] at h ⊢
      exact runFromLines_exists_iff header _ stats h
  · cases lines with
    | nil =>
      intro h
      simp [processUsersAsStreamAndConcurrency, abortRun] at h
    | cons header rest =>
      intro h
      simp only [processUsersAsStreamAndConcurrency] at h ⊢
      cases hh : processHeaders header with
      | error e =>
        rw [hh] at h
        simp [abortRun] at h
      | ok idx =>
        rw [hh, finishRun_result] at h
        injection h with h2
        rw [← h2]
        exact finishRun_exists_iff _ _
  · intro h
    by_cases he : jsTrim csv = ""
    · simp only [processUsers, if_pos he] at h ⊢
      injection h with h2
      rw [← h2]
      simp [Stats.new]
    · simp only [processUsers, if_neg he] at h ⊢
      cases hsplit : jsSplit csv '\n' with
      | nil =>
        rw [hsplit] at h
        injection h with h2
        rw [← h2]
        simp [Stats.new]
      | cons header rest =>
        rw [hsplit] at h
        exact runFromLines_exists_iff header _ stats h

/-- C8 witness: a header-only file ends with no output file; a file with one
valid line keeps it. -/
theorem zero_processed_output_deleted_witness :
    ((processUsersAsStream ["name,email,age"]).outputExists = true
      ↔ 0 < (Stats.mk 0 0).processed)
  ∧ ((processUsersAsStream
        ["name,email,age", "john doe,john@example.com,25"]).outputExists = true
      ↔ 0 < (Stats.mk 1 0).processed) := by
  constructor
  · exact (zero_processed_output_deleted ["name,email,age"] (fun _ => false)
      "" ⟨0, 0⟩).1 rfl
  · exact (zero_processed_output_deleted
      ["name,email,age", "john doe,john@example.com,25"] (fun _ => false)
      "" ⟨1, 0⟩).1 rfl

/-- C9: with the fixed batch capacity 1000 of
`processUsersAsStreamAndConcurrency`, the batching loop never has more than
1000 units in flight: each line launches one unit, on reaching capacity the
writer settles the whole batch before launching more, and after the line
source is exhausted the remaining partial batch is settled, leaving zero
pending units at the end of the trace. -/
theorem batching_bounds_inflight_units (ls : List String) :
    maxPending (writerTrace batchSize ls 0) 0 ≤ batchSize
  ∧ pendingAfter (writerTrace batchSize ls 0) 0 = 0 :=
  writerTrace_inv batchSize (by decide) ls 0 (by decide)

/-- C10: when no output path is supplied the constructor defaults to
`path.join(path.dirname(input), 'output.csv')`, and the resulting instance
equals one constructed with that path passed explicitly, so each processing
method behaves identically on the two instances. -/
theorem default_output_path (input : String) (lines : List String)
    (csv : String) (failAt : Nat → Bool) :
    (CsvParser.make input none).outputFilePath
        = joinPath (dirname input) "output.csv"
  ∧ CsvParser.make input none
      = CsvParser.make input (some (joinPath (dirname input) "output.csv"))
  ∧ (CsvParser.make input none).runStream lines
      = (CsvParser.make input
          (some (joinPath (dirname input) "output.csv"))).runStream lines
  ∧ (CsvParser.make input none).runWhole csv
      = (CsvParser.make input
          (some (joinPath (dirname input) "output.csv"))).runWhole csv
  ∧ (CsvParser.make input none).runConc failAt lines
      = (CsvParser.make input
          (some (joinPath (dirname input) "output.csv"))).runConc failAt lines := by
  have hne := joinPath_ne_empty (dirname input) "output.csv"
  have hmk : CsvParser.make input none
      = CsvParser.make input (some (joinPath (dirname input) "output.csv")) := by
    show CsvParser.mk input (joinPath (dirname input) "output.csv")
      = CsvParser.mk input
          (if joinPath (dirname input) "output.csv" = "" then
            joinPath (dirname input) "output.csv"
          else joinPath (dirname input) "output.csv")
    rw [if_neg hne]
  exact ⟨rfl, hmk, by rw [hmk], by rw [hmk], by rw [hmk]⟩
